import Mathlib

/-!
Shallow embedding of the synchronization engine of `src/websocket_server.py`
(class `SyncServer`): the JSON-like value tree, the change apply/revert
algorithms, and the message handlers the claims refer to.

Python values parsed from JSON are modelled by `Value`; Python `None` is
`Value.null`.  Path segments ("string-or-int keys") are modelled by `Key`.
Python dicts are insertion-ordered association lists; keys are unique in every
state the server actually builds, and all operations below use
first-occurrence semantics, matching dict behaviour on unique-key lists.
In-place mutation is modelled by rebuilding the tree along the navigated path;
an uncaught Python exception is modelled by a `Bool` "raised" flag returned
next to the mutated state (mutations performed before the raise are kept,
as they are in Python).
-/

/-- A path segment of a `Change`: Python `str` or `int` (JSON string or
integer).  Python equality of such keys is equality within the same type and
`False` across types, which is exactly the derived `DecidableEq`. -/
inductive Key where
  | str (s : String)
  | int (n : Int)
deriving DecidableEq, Repr

/-- JSON-like values (`null`/`bool`/`number`/`string`/`sequence`/`map`).
Numbers are modelled as integers; the timestamps compared by the server are
millisecond counts.  Map keys are `Key` because `apply_change` may insert an
integer key into a Python dict. -/
inductive Value where
  | null
  | bool (b : Bool)
  | num (n : Int)
  | str (s : String)
  | arr (xs : List Value)
  | obj (fs : List (Key × Value))
deriving Repr

mutual

/-- Decidable equality for `Value` (hand-rolled: the automatic derivation does
not support the nested `List` occurrences). -/
def Value.decEq : (a b : Value) → Decidable (a = b)
  | .null, .null => isTrue rfl
  | .null, .bool _ => isFalse (fun h => Value.noConfusion h)
  | .null, .num _ => isFalse (fun h => Value.noConfusion h)
  | .null, .str _ => isFalse (fun h => Value.noConfusion h)
  | .null, .arr _ => isFalse (fun h => Value.noConfusion h)
  | .null, .obj _ => isFalse (fun h => Value.noConfusion h)
  | .bool _, .null => isFalse (fun h => Value.noConfusion h)
  | .bool a, .bool b =>
    if h : a = b then isTrue (by rw [h]) else isFalse (fun hc => h (Value.bool.inj hc))
  | .bool _, .num _ => isFalse (fun h => Value.noConfusion h)
  | .bool _, .str _ => isFalse (fun h => Value.noConfusion h)
  | .bool _, .arr _ => isFalse (fun h => Value.noConfusion h)
  | .bool _, .obj _ => isFalse (fun h => Value.noConfusion h)
  | .num _, .null => isFalse (fun h => Value.noConfusion h)
  | .num _, .bool _ => isFalse (fun h => Value.noConfusion h)
  | .num a, .num b =>
    if h : a = b then isTrue (by rw [h]) else isFalse (fun hc => h (Value.num.inj hc))
  | .num _, .str _ => isFalse (fun h => Value.noConfusion h)
  | .num _, .arr _ => isFalse (fun h => Value.noConfusion h)
  | .num _, .obj _ => isFalse (fun h => Value.noConfusion h)
  | .str _, .null => isFalse (fun h => Value.noConfusion h)
  | .str _, .bool _ => isFalse (fun h => Value.noConfusion h)
  | .str _, .num _ => isFalse (fun h => Value.noConfusion h)
  | .str a, .str b =>
    if h : a = b then isTrue (by rw [h]) else isFalse (fun hc => h (Value.str.inj hc))
  | .str _, .arr _ => isFalse (fun h => Value.noConfusion h)
  | .str _, .obj _ => isFalse (fun h => Value.noConfusion h)
  | .arr _, .null => isFalse (fun h => Value.noConfusion h)
  | .arr _, .bool _ => isFalse (fun h => Value.noConfusion h)
  | .arr _, .num _ => isFalse (fun h => Value.noConfusion h)
  | .arr _, .str _ => isFalse (fun h => Value.noConfusion h)
  | .arr xs, .arr ys =>
    match Value.decEqList xs ys with
    | isTrue h => isTrue (by rw [h])
    | isFalse h => isFalse (fun hc => h (Value.arr.inj hc))
  | .arr _, .obj _ => isFalse (fun h => Value.noConfusion h)
  | .obj _, .null => isFalse (fun h => Value.noConfusion h)
  | .obj _, .bool _ => isFalse (fun h => Value.noConfusion h)
  | .obj _, .num _ => isFalse (fun h => Value.noConfusion h)
  | .obj _, .str _ => isFalse (fun h => Value.noConfusion h)
  | .obj _, .arr _ => isFalse (fun h => Value.noConfusion h)
  | .obj fs, .obj gs =>
    match Value.decEqFields fs gs with
    | isTrue h => isTrue (by rw [h])
    | isFalse h => isFalse (fun hc => h (Value.obj.inj hc))

/-- Decidable equality for lists of values. -/
def Value.decEqList : (xs ys : List Value) → Decidable (xs = ys)
  | [], [] => isTrue rfl
  | [], _ :: _ => isFalse (fun h => List.noConfusion h)
  | _ :: _, [] => isFalse (fun h => List.noConfusion h)
  | x :: xs, y :: ys =>
    match Value.decEq x y with
    | isFalse h => isFalse (fun hc => h (List.cons.inj hc).1)
    | isTrue h1 =>
      match Value.decEqList xs ys with
      | isTrue h2 => isTrue (by rw [h1, h2])
      | isFalse h2 => isFalse (fun hc => h2 (List.cons.inj hc).2)

/-- Decidable equality for map fields. -/
def Value.decEqFields : (fs gs : List (Key × Value)) → Decidable (fs = gs)
  | [], [] => isTrue rfl
  | [], _ :: _ => isFalse (fun h => List.noConfusion h)
  | _ :: _, [] => isFalse (fun h => List.noConfusion h)
  | (k, v) :: fs, (l, w) :: gs =>
    if hk : k = l then
      match Value.decEq v w with
      | isFalse h =>
        isFalse (fun hc => h (congrArg Prod.snd (List.cons.inj hc).1))
      | isTrue hv =>
        match Value.decEqFields fs gs with
        | isTrue ht => isTrue (by rw [hk, hv, ht])
        | isFalse ht => isFalse (fun hc => ht (List.cons.inj hc).2)
    else
      isFalse (fun hc => hk (congrArg Prod.fst (List.cons.inj hc).1))

end

instance : DecidableEq Value := Value.decEq

/-! ### Python dict and list primitives -/

/-- `target.get(k)` / `target[k]` on an insertion-ordered dict: the value of
the first (in a well-formed dict, only) binding of `k`. -/
def getKey : List (Key × Value) → Key → Option Value
  | [], _ => none
  | (l, w) :: fs, k => if l = k then some w else getKey fs k

/-- `k in target` on a dict. -/
def hasKey (fs : List (Key × Value)) (k : Key) : Bool :=
  (getKey fs k).isSome

/-- `target[k] = v` on a dict: overwrite in place if the key is bound,
otherwise append the new binding (Python dicts keep insertion order). -/
def setKey : List (Key × Value) → Key → Value → List (Key × Value)
  | [], k, v => [(k, v)]
  | (l, w) :: fs, k, v => if l = k then (l, v) :: fs else (l, w) :: setKey fs k v

/-- `target.pop(k, None)` on a dict: drop the binding of `k` if present. -/
def popKey : List (Key × Value) → Key → List (Key × Value)
  | [], _ => []
  | (l, w) :: fs, k => if l = k then fs else (l, w) :: popKey fs k

/-- `xs.insert(i, v)` on a Python list: a negative index counts from the end,
and the effective index is clamped into `[0, len]`. -/
def pyInsert (xs : List Value) (i : Int) (v : Value) : List Value :=
  let n : Int := xs.length
  let j : Int := if i < 0 then max (i + n) 0 else min i n
  xs.take j.toNat ++ v :: xs.drop j.toNat

/-- `xs.pop(i)` on a Python list: a negative index counts from the end;
returns `none` when the adjusted index is out of range (`IndexError`). -/
def pyPop (xs : List Value) (i : Int) : Option (List Value) :=
  let j : Int := if i < 0 then i + xs.length else i
  if 0 ≤ j ∧ j < (xs.length : Int) then
    some (xs.take j.toNat ++ xs.drop (j.toNat + 1))
  else
    none

/-- Decimal value of a digit string. -/
def digitsToNat (ds : List Char) : Nat :=
  ds.foldl (fun acc c => acc * 10 + (c.toNat - '0'.toNat)) 0

/-- `int(s)` on a string: optional sign followed by at least one digit
(`none` models `ValueError`). -/
def pyIntOfStr (s : String) : Option Int :=
  match s.data with
  | [] => none
  | '-' :: ds => if ds ≠ [] ∧ ds.all Char.isDigit then some (-(digitsToNat ds : Int)) else none
  | '+' :: ds => if ds ≠ [] ∧ ds.all Char.isDigit then some ((digitsToNat ds : Int)) else none
  | ds => if ds.all Char.isDigit then some ((digitsToNat ds : Int)) else none

/-- `idx = int(key) if isinstance(key, str) else key`: `none` models the
`ValueError` raised for a non-numeric string. -/
def keyToIdx : Key → Option Int
  | .int n => some n
  | .str s => pyIntOfStr s

/-- `isinstance(k, int) or (isinstance(k, str) and k.isdigit())`: the
peek-ahead test deciding whether a created container is a list or a dict. -/
def isNumericKey : Key → Bool
  | .int _ => true
  | .str s => s.data ≠ [] ∧ s.data.all Char.isDigit

/-- Python truthiness of a JSON-like value (`if not sync_data: ...`). -/
def pyTruthy : Value → Bool
  | .null => false
  | .bool b => b
  | .num n => n ≠ 0
  | .str s => s ≠ ""
  | .arr xs => xs ≠ []
  | .obj fs => fs ≠ []

/-- `v is None` for values coming from JSON (`None` is `null`). -/
def Value.isNull : Value → Bool
  | .null => true
  | _ => false

/-- `path.index(key)`: index of the first occurrence of `key` (the code only
calls it for a key that does occur). -/
def firstIdx (path : List Key) (k : Key) : Nat :=
  match path with
  | [] => 0
  | l :: rest => if l = k then 0 else firstIdx rest k + 1

/-- Python `l[-n:]`: the last `n` elements. -/
def lastN (n : Nat) (l : List α) : List α :=
  l.drop (l.length - n)

/-! ### Changes and the change engine (`apply_change` / `revert_change`) -/

/-- A `change` message payload after the server stamps it.  `value` is
`change.get('value')` (an absent field reads as `None`, i.e. `null`).
`oldValue` distinguishes an absent `oldValue` field (`none`) from one present
as JSON `null` (`some .null`).  `undone` models the flag read with
`change.get('undone')` (absent = false).  The wall-clock metadata fields
`timestamp`, `undoneAt` and the join cursor are carried but never read by any
handler, so they are elided. -/
structure Change where
  type : String
  path : List Key
  value : Value
  oldValue : Option Value
  clientId : String
  changeId : String
  undone : Bool
deriving DecidableEq, Repr

/-- The `if 'oldValue' not in change` block of `apply_change`: capture the
prior value at the final path segment (absent position reads as `None`). -/
def recordOld (change : Change) (k : Key) (target : Value) : Change :=
  if change.oldValue.isSome then change
  else
    match target with
    | .obj fs => { change with oldValue := some ((getKey fs k).getD .null) }
    | .arr xs =>
      match keyToIdx k with
      | some i =>
        if 0 ≤ i ∧ i < (xs.length : Int) then
          { change with oldValue := some (xs.getD i.toNat .null) }
        else
          { change with oldValue := some .null }
      | none => { change with oldValue := some .null }
    | _ => { change with oldValue := some .null }

/-- The final-segment block of `apply_change`: record the old value, then
apply by change type.  All exceptions in this block are caught by the code. -/
def applyLast (change : Change) (k : Key) (target : Value) : Value × Change :=
  let ch := recordOld change k target
  let t' :=
    if change.type = "set" then
      match target with
      | .obj fs => Value.obj (setKey fs k change.value)
      | .arr xs =>
        match keyToIdx k with
        | some i =>
          if 0 ≤ i ∧ i < (xs.length : Int) then Value.arr (xs.set i.toNat change.value)
          else Value.arr (xs ++ [change.value])
        | none => Value.arr xs
      | t => t
    else if change.type = "delete" then
      match target with
      | .obj fs => Value.obj (popKey fs k)
      | .arr xs =>
        match keyToIdx k with
        | some i =>
          if 0 ≤ i ∧ i < (xs.length : Int) then
            Value.arr (xs.take i.toNat ++ xs.drop (i.toNat + 1))
          else Value.arr xs
        | none => Value.arr xs
      | t => t
    else if change.type = "add" then
      match target with
      | .arr xs => Value.arr (xs ++ [change.value])
      | .obj fs => Value.obj (setKey fs k change.value)
      | t => t
    else if change.type = "insert" then
      match target with
      | .arr xs =>
        match keyToIdx k with
        | some i => Value.arr (pyInsert xs i change.value)
        | none => Value.arr xs
      | t => t
    else target
  (t', ch)

/-- The navigation loop of `apply_change` (`for key in path[:-1]`) plus the
final-segment block.  `fullPath` is the whole `change['path']`, needed because
the container-creation heuristic calls `path.index(key)` on it.  A missing
dict key creates a list when the peeked next segment is numeric-looking and a
dict otherwise; list navigation aborts the change (caught, logged, return) on
a non-numeric or out-of-range index.  The returned flag is true when an
uncaught exception escapes (only the `path[-1]` lookup on an empty path). -/
def applyGo (fullPath : List Key) : Change → Value → List Key → Value × Change × Bool
  | change, target, [] => (target, change, true)
  | change, target, k :: rest =>
    if rest = [] then
      let (t', ch) := applyLast change k target
      (t', ch, false)
    else
    match target with
    | .obj fs =>
      if hasKey fs k then
        let (child', ch, r) := applyGo fullPath change ((getKey fs k).getD .null) rest
        (Value.obj (setKey fs k child'), ch, r)
      else
        let child : Value :=
          match fullPath.get? (firstIdx fullPath k + 1) with
          | some nk => if isNumericKey nk then Value.arr [] else Value.obj []
          | none => Value.obj []
        let (child', ch, r) := applyGo fullPath change child rest
        (Value.obj (setKey fs k child'), ch, r)
    | .arr xs =>
      match keyToIdx k with
      | some i =>
        if 0 ≤ i ∧ i < (xs.length : Int) then
          let (child', ch, r) := applyGo fullPath change (xs.getD i.toNat .null) rest
          (Value.arr (xs.set i.toNat child'), ch, r)
        else (Value.arr xs, change, false)
      | none => (Value.arr xs, change, false)
    | t => (t, change, false)

/-- `SyncServer.apply_change` acting on one document value: returns the
mutated value, the change with its recorded `oldValue`, and the raised flag. -/
def apply_change (root : Value) (change : Change) : Value × Change × Bool :=
  applyGo change.path change root change.path

/-- The final-segment block of `revert_change`.  The raised flag is true when
an uncaught exception escapes: the duplicated unconditional
`target.insert(path[-1], old_value)` in the `delete` branch raises `TypeError`
for a string index, and `target.pop(path[-1])` in the `insert` branch raises
for a string or out-of-range index. -/
def revertLast (change : Change) (k : Key) (target : Value) : Value × Bool :=
  let old := change.oldValue.getD .null
  if change.type = "set" ∨ change.type = "add" then
    match target with
    | .obj fs =>
      (if old.isNull then Value.obj (popKey fs k) else Value.obj (setKey fs k old), false)
    | .arr xs =>
      if change.type = "add" then
        (if xs.length > 0 then Value.arr (xs.take (xs.length - 1)) else Value.arr xs, false)
      else
        match keyToIdx k with
        | some i =>
          (if 0 ≤ i ∧ i < (xs.length : Int) then Value.arr (xs.set i.toNat old)
           else Value.arr xs, false)
        | none => (Value.arr xs, false)
    | t => (t, false)
  else if change.type = "delete" then
    match target with
    | .obj fs => (if old.isNull then Value.obj fs else Value.obj (setKey fs k old), false)
    | .arr xs =>
      let xs1 :=
        match keyToIdx k with
        | some i => if old.isNull then xs else pyInsert xs i old
        | none => xs
      match k with
      | .int i => (Value.arr (pyInsert xs1 i old), false)
      | .str _ => (Value.arr xs1, true)
    | t => (t, false)
  else if change.type = "insert" then
    match target with
    | .arr xs =>
      match k with
      | .int i =>
        match pyPop xs i with
        | some xs' => (Value.arr xs', false)
        | none => (Value.arr xs, true)
      | .str _ => (Value.arr xs, true)
    | t => (t, false)
  else (target, false)

/-- The navigation loop of `revert_change`: no container creation; a missing
key, bad index or non-container silently ends the revert (plain `return`). -/
def revertGo : Change → Value → List Key → Value × Bool
  | _, target, [] => (target, true)
  | change, target, k :: rest =>
    if rest = [] then revertLast change k target
    else
    match target with
    | .obj fs =>
      if hasKey fs k then
        let (child', r) := revertGo change ((getKey fs k).getD .null) rest
        (Value.obj (setKey fs k child'), r)
      else (Value.obj fs, false)
    | .arr xs =>
      match keyToIdx k with
      | some i =>
        if 0 ≤ i ∧ i < (xs.length : Int) then
          let (child', r) := revertGo change (xs.getD i.toNat .null) rest
          (Value.arr (xs.set i.toNat child'), r)
        else (Value.arr xs, false)
      | none => (Value.arr xs, false)
    | t => (t, false)

/-- `SyncServer.revert_change` acting on one document value: returns the
mutated value (partial mutations are kept when an exception escapes) and the
raised flag. -/
def revert_change (root : Value) (change : Change) : Value × Bool :=
  revertGo change root change.path

/-- Read-only navigation along a path, exactly the step conditions shared by
the successful (no-creation, no-abort) walks of `applyGo` and `revertGo`. -/
def navigate : Value → List Key → Option Value
  | v, [] => some v
  | .obj fs, k :: rest =>
    match getKey fs k with
    | some child => navigate child rest
    | none => none
  | .arr xs, k :: rest =>
    match keyToIdx k with
    | some i =>
      if 0 ≤ i ∧ i < (xs.length : Int) then navigate (xs.getD i.toNat .null) rest else none
    | none => none
  | _, _ :: _ => none

instance : Inhabited Change :=
  ⟨{ type := "", path := [], value := .null, oldValue := none,
     clientId := "", changeId := "", undone := false }⟩

/-! ### Server state and message handlers -/

/-- An entry of the per-document operation log.  Its shape follows the spec's
data model: "Operation — same shape as Change plus monotonically increasing
per-document sequence number" (the code that builds these entries is not part
of `src/`; see the spec-modelled definitions below). -/
structure Operation where
  seq : Nat
  change : Change
deriving DecidableEq, Repr

/-- Dict read on the string-keyed server dictionaries. -/
def getEntry : List (String × α) → String → Option α
  | [], _ => none
  | (l, w) :: es, k => if l = k then some w else getEntry es k

/-- Dict write on the string-keyed server dictionaries (insertion order kept,
overwrite in place). -/
def setEntry : List (String × α) → String → α → List (String × α)
  | [], k, v => [(k, v)]
  | (l, w) :: es, k, v => if l = k then (l, v) :: es else (l, w) :: setEntry es k v

/-- The per-process state of `SyncServer` (`__init__`): connected clients,
per-document session membership (the per-member `session_info` record of
join time and cursor is never read and is elided), change history, cached
document data, and the operation log with its per-document last sequence
number.  `client_files`, used only for disconnect cleanup, is elided. -/
structure ServerState where
  clients : List String
  file_sessions : List (String × List String)
  change_history : List (String × List Change)
  file_data : List (String × Value)
  operation_logs : List (String × List Operation)
  operation_sequences : List (String × Nat)
deriving DecidableEq, Repr

/-- Server → client messages, one constructor per `type` tag the embedded
handlers emit. -/
inductive Msg where
  | file_joined (filename : String) (data : Value) (timestamp : Value)
      (history : List Change) (lastOperationSequence : Nat)
  | operations_response (filename : String) (operations : List Operation) (lastSequence : Nat)
  | client_joined (clientId : String) (filename : String)
  | full_sync (filename : String) (data : Value) (timestamp : Int) (clientId : String)
  | change (filename : String) (change : Change)
  | undo (filename : String) (changeId : String)
deriving DecidableEq, Repr

/-- `SyncServer.send_to_client`: a delivery happens only when the client id is
currently connected. -/
def send_to_client (st : ServerState) (client_id : String) (m : Msg) : List (String × Msg) :=
  if client_id ∈ st.clients then [(client_id, m)] else []

/-- `SyncServer.broadcast_to_file`: deliver `m` to every session member of
`filename` except `exclude_client_id` (`none` excludes nobody). -/
def broadcast_to_file (st : ServerState) (filename : String) (exclude_client_id : Option String)
    (m : Msg) : List (String × Msg) :=
  match getEntry st.file_sessions filename with
  | none => []
  | some members =>
    members.foldr
      (fun c acc => (if some c ≠ exclude_client_id then send_to_client st c m else []) ++ acc) []

/-- The `current_timestamp` read of `handle_full_sync`:
`self.file_data.get(filename, {}).get('_lastSyncTimestamp', 0)` followed by
the `<` comparison.  `none` models an uncaught exception: `.get` on a cached
non-dict raises `AttributeError`, and comparing the message timestamp with a
cached non-number (Python bools compare as 0/1) raises `TypeError`. -/
def currentTs (st : ServerState) (f : String) : Option Int :=
  match getEntry st.file_data f with
  | none => some 0
  | some (.obj fs) =>
    match getKey fs (.str "_lastSyncTimestamp") with
    | none => some 0
    | some (.num n) => some n
    | some (.bool b) => some (if b then 1 else 0)
    | some _ => none
  | some _ => none

/-- `SyncServer.handle_full_sync`.  `dataField`/`tsField` are the message's
`data`/`timestamp` fields (`none` = absent; an absent timestamp defaults to
the current wall clock `now`).  Returns the new state, the deliveries, and
the uncaught-exception flag (`sync_data['_lastSyncTimestamp'] = timestamp`
raises `TypeError` on a truthy non-dict `data`). -/
def handle_full_sync (st : ServerState) (client_id : String) (filename : Option String)
    (dataField : Option Value) (tsField : Option Int) (now : Int) :
    ServerState × List (String × Msg) × Bool :=
  let timestamp := tsField.getD now
  match filename with
  | none => (st, [], false)
  | some f =>
    if f = "" then (st, [], false)
    else
      match dataField with
      | none => (st, [], false)
      | some d =>
        if pyTruthy d = false then (st, [], false)
        else
          match currentTs st f with
          | none => (st, [], true)
          | some cur =>
            if timestamp < cur then (st, [], false)
            else
              match d with
              | .obj fs =>
                let newData := Value.obj (setKey fs (.str "_lastSyncTimestamp") (.num timestamp))
                let st' := { st with file_data := setEntry st.file_data f newData }
                (st', broadcast_to_file st' f (some client_id)
                        (Msg.full_sync f newData timestamp client_id), false)
              | _ => (st, [], true)

/-- What `save_file_data` writes to disk for a document: the cached value
(`json.dump(self.file_data[filename], ...)`), or nothing when the document is
not cached. -/
def save_file_data (st : ServerState) (f : String) : Option Value :=
  getEntry st.file_data f

/-- `SyncServer.load_file_data` folded into its callers: `disk f` is the
parsed on-disk value, already reduced to `{}` for a missing or unreadable
file, as `load_file_data` does. -/
def loadIfAbsent (fd : List (String × Value)) (f : String) (disk : String → Value) :
    List (String × Value) :=
  if (getEntry fd f).isSome then fd else setEntry fd f (disk f)

/-- `SyncServer.handle_join_file`: register membership, lazily load the
document, send `file_joined` (and `operations_response` when an operation log
exists) to the joiner, then broadcast `client_joined` to the other members.
The raised flag models `.get` on a cached non-dict value. -/
def handle_join_file (st : ServerState) (client_id : String) (filename : Option String)
    (disk : String → Value) (now : Int) : ServerState × List (String × Msg) × Bool :=
  match filename with
  | none => (st, [], false)
  | some f =>
    if f = "" then (st, [], false)
    else
      let members := (getEntry st.file_sessions f).getD []
      let members' := if client_id ∈ members then members else members ++ [client_id]
      let st1 := { st with file_sessions := setEntry st.file_sessions f members' }
      let st2 := { st1 with file_data := loadIfAbsent st1.file_data f disk }
      let fd := (getEntry st2.file_data f).getD (.obj [])
      match fd with
      | .obj fs =>
        let ts := (getKey fs (.str "_lastSyncTimestamp")).getD (.num now)
        let lastSeq := (getEntry st2.operation_sequences f).getD 0
        let s1 := send_to_client st2 client_id
          (Msg.file_joined f fd ts (lastN 50 ((getEntry st2.change_history f).getD [])) lastSeq)
        let ops := (getEntry st2.operation_logs f).getD []
        let s2 :=
          if ops ≠ [] then
            send_to_client st2 client_id (Msg.operations_response f (lastN 100 ops) lastSeq)
          else []
        let s3 := broadcast_to_file st2 f (some client_id) (Msg.client_joined client_id f)
        (st2, s1 ++ s2 ++ s3, false)
      | _ => (st2, [], true)

/-- `SyncServer.apply_change` at the handler level: lazily load the document,
then run the change engine on the cached value. -/
def apply_change_in (fd : List (String × Value)) (f : String) (c : Change)
    (disk : String → Value) : List (String × Value) × Change × Bool :=
  let fd1 := loadIfAbsent fd f disk
  let v := (getEntry fd1 f).getD (.obj [])
  let r := apply_change v c
  (setEntry fd1 f r.1, r.2.1, r.2.2)

/-- `SyncServer.handle_change`: stamp the change with the author and a change
id, apply it, append the applied change (with its recorded `oldValue`) to the
bounded history, and broadcast it to the other members.  `nowTs` is the
wall-clock suffix of the change id.  A falsy `change` field is modelled by
`none`.  Nothing here touches the operation log. -/
def handle_change (st : ServerState) (client_id : String) (filename : Option String)
    (chField : Option Change) (disk : String → Value) (nowTs : String) :
    ServerState × List (String × Msg) × Bool :=
  match filename, chField with
  | some f, some c0 =>
    if f = "" then (st, [], false)
    else
      let c1 := { c0 with clientId := client_id, changeId := client_id ++ "_" ++ nowTs }
      let (fd', c2, r) := apply_change_in st.file_data f c1 disk
      let st2 := { st with file_data := fd' }
      if r then (st2, [], true)
      else
        let hist' := lastN 1000 (((getEntry st2.change_history f).getD []) ++ [c2])
        let st3 := { st2 with change_history := setEntry st2.change_history f hist' }
        (st3, broadcast_to_file st3 f (some client_id) (Msg.change f c2), false)
  | _, _ => (st, [], false)

/-- `{ ch with undone := true }`: the in-place marking done by `handle_undo`
(the wall-clock `undoneAt` is elided with the other timestamp metadata). -/
def markUndone (ch : Change) : Change :=
  { ch with undone := true }

/-- The scan `for i in range(len(history) - 1, -1, -1)` of `handle_undo`: the
index of the newest history entry authored by `c` and not yet undone. -/
def lastMatchIdx (l : List Change) (c : String) : Option Nat :=
  match l with
  | [] => none
  | ch :: rest =>
    match lastMatchIdx rest c with
    | some i => some (i + 1)
    | none => if ch.clientId = c ∧ ch.undone = false then some 0 else none

/-- `SyncServer.revert_change` at the handler level: a document that is not
cached is silently skipped (`if filename not in self.file_data: return`). -/
def revertInData (fd : List (String × Value)) (f : String) (ch : Change) :
    List (String × Value) × Bool :=
  match getEntry fd f with
  | none => (fd, false)
  | some v =>
    let r := revert_change v ch
    (setEntry fd f r.1, r.2)

/-- The committed part of `handle_undo` once the scan has selected the history
entry at index `i` (holding change `ch`): mark it undone in place, revert it
against the cached document, and — unless the revert raised — broadcast `undo`
to all session members (exclusion `none`) . -/
def undoResult (st : ServerState) (f : String) (history : List Change) (i : Nat) (ch : Change) :
    ServerState × List (String × Msg) × Bool :=
  let ch' := markUndone ch
  let st1 := { st with change_history := setEntry st.change_history f (history.set i ch') }
  let rr := revertInData st1.file_data f ch'
  let st2 := { st1 with file_data := rr.1 }
  if rr.2 then (st2, [], true)
  else (st2, broadcast_to_file st2 f none (Msg.undo f ch'.changeId), false)

/-- `SyncServer.handle_undo`: scan the document's history from newest to
oldest for the first entry authored by the requester and not undone; mark it
undone, revert it, and broadcast `undo` to all members (no exclusion).  When
the revert raises, the marking and any partial mutation persist but the
broadcast is skipped. -/
def handle_undo (st : ServerState) (client_id : String) (filename : Option String) :
    ServerState × List (String × Msg) × Bool :=
  match filename with
  | none => (st, [], false)
  | some f =>
    if f = "" then (st, [], false)
    else
      match getEntry st.change_history f with
      | none => (st, [], false)
      | some history =>
        match lastMatchIdx history client_id with
        | none => (st, [], false)
        | some i => undoResult st f history i (history.getD i default)

/-! ### Catch-up requests (spec-modelled)

`handle_message` dispatches `request_operations` (line 89) to a `SyncServer`
method whose body is not part of `src/`; only the `operation_logs` and
`operation_sequences` declarations in `__init__` and their readers in
`handle_join_file` are present.  The catch-up handler below is therefore
modelled from the spec's words (§4.6 "Operation Log & Catch-up").  Note that
no method present in `src/` ever writes the operation log — in particular
`handle_change` does not append to it (settled separately against the
embedded `handle_change` above). -/

/-- The per-document operation-log state as §4.6 describes it: the list of
retained Operations and the next sequence number to hand out ("sequence starts
at 0, increments by 1, never reused"). -/
structure OpLogState where
  log : List Operation
  nextSeq : Nat
deriving DecidableEq, Repr

/-- Reply to a `request_operations` message. -/
inductive OpsReply where
  | operations (ops : List Operation) (lastSequence : Nat)
  | trimmed
deriving DecidableEq, Repr

/-- The oldest sequence number still retained (the log holds the most recent
`log.length` of the `nextSeq` operations produced so far). -/
def oldestRetained (st : OpLogState) : Nat :=
  st.nextSeq - st.log.length

/-- Modelled from the spec: the `request_operations` handler dispatched at
src/websocket_server.py line 89 but absent from `src/` — "a
`request_operations` request (by "since sequence") must return all retained
operations with sequence greater than the given value, or signal that the
requested range has already been trimmed (gap — client must fall back to full
resync)."  The range is trimmed exactly when some produced sequence above
`since` is older than the oldest retained one. -/
def handle_request_operations (st : OpLogState) (since : Nat) : OpsReply :=
  if since + 1 < oldestRetained st then OpsReply.trimmed
  else OpsReply.operations (st.log.filter (fun op => since < op.seq)) st.nextSeq

/-- The spec's log discipline (§4.6): the retained log is a contiguous final
segment of the produced sequence numbers — appending with consecutive
sequences starting at 0 and trimming to the most recent bound always leaves
the log in this shape. -/
def WellFormedLog (st : OpLogState) : Prop :=
  st.log.map Operation.seq = List.range' (oldestRetained st) st.log.length ∧
  st.log.length ≤ st.nextSeq

instance (st : OpLogState) : Decidable (WellFormedLog st) :=
  inferInstanceAs (Decidable (_ ∧ _))

/-! ### Lemmas about the dict and list primitives -/

lemma getKey_setKey_self (fs : List (Key × Value)) (k : Key) (v : Value) :
    getKey (setKey fs k v) k = some v := by
  induction fs with
  | nil => simp [setKey, getKey]
  | cons e fs ih =>
    obtain ⟨l, w⟩ := e
    by_cases h : l = k <;> simp [setKey, getKey, h, ih]

lemma setKey_setKey (fs : List (Key × Value)) (k : Key) (v w : Value) :
    setKey (setKey fs k v) k w = setKey fs k w := by
  induction fs with
  | nil => simp [setKey]
  | cons e fs ih =>
    obtain ⟨l, u⟩ := e
    by_cases h : l = k <;> simp [setKey, h, ih]

lemma setKey_getKey_self (fs : List (Key × Value)) (k : Key) (w : Value)
    (h : getKey fs k = some w) : setKey fs k w = fs := by
  induction fs with
  | nil => simp [getKey] at h
  | cons e fs ih =>
    obtain ⟨l, u⟩ := e
    by_cases hl : l = k
    · simp [getKey, hl] at h
      simp [setKey, hl, h]
    · simp [getKey, hl] at h
      simp [setKey, hl, ih h]

lemma popKey_setKey_absent (fs : List (Key × Value)) (k : Key) (v : Value)
    (h : getKey fs k = none) : popKey (setKey fs k v) k = fs := by
  induction fs with
  | nil => simp [setKey, popKey]
  | cons e fs ih =>
    obtain ⟨l, u⟩ := e
    by_cases hl : l = k
    · simp [getKey, hl] at h
    · simp [getKey, hl] at h
      simp [setKey, popKey, hl, ih h]

lemma getD_set_self (xs : List Value) (i : Nat) (v d : Value) (h : i < xs.length) :
    (xs.set i v).getD i d = v := by
  induction xs generalizing i with
  | nil => simp at h
  | cons x xs ih =>
    cases i with
    | zero => simp [List.set, List.getD]
    | succ j =>
      have h' : j < xs.length := by simpa using h
      simpa [List.set, List.getD_cons_succ] using ih j h'

lemma set_getD_self (xs : List Value) (i : Nat) (d : Value) (h : i < xs.length) :
    xs.set i (xs.getD i d) = xs := by
  induction xs generalizing i with
  | nil => simp at h
  | cons x xs ih =>
    cases i with
    | zero => simp [List.set, List.getD]
    | succ j =>
      have h' : j < xs.length := by simpa using h
      simpa [List.set, List.getD_cons_succ] using ih j h'

lemma isNull_false_of_ne (v : Value) (h : v ≠ Value.null) : v.isNull = false := by
  cases v <;> simp [Value.isNull] at h ⊢

/-! ### Claim C3: the nested-creation scenario -/

/-- The change of the spec's walkthrough scenario:
`{type: set, path: ["items", "0", "done"], value: true}`. -/
def c3change : Change :=
  { type := "set", path := [Key.str "items", Key.str "0", Key.str "done"],
    value := Value.bool true, oldValue := none, clientId := "clientA",
    changeId := "a1", undone := false }

/-- C3 (counterexample): applying the scenario change to a fresh empty-map
document does NOT produce the claimed result. `items` is created as an empty
sequence (next segment "0" is numeric), but then navigation must index into
that empty sequence at 0, which is out of range, so the change aborts; no
`items[0]` map is ever created and `done` is never set. -/
theorem c3_counterexample :
    (apply_change (Value.obj []) c3change).1 ≠
      Value.obj [(Key.str "items",
        Value.arr [Value.obj [(Key.str "done", Value.bool true)]])] := by
  decide

/-- C3 (amended): applying the scenario change to a fresh empty-map document
creates `items` as an empty sequence via the numeric peek-ahead, then aborts
navigating into the empty sequence (index 0 out of range, caught and logged),
leaving `{"items": []}`, the change unmodified, and no exception escaping. -/
theorem c3_amended :
    apply_change (Value.obj []) c3change =
      (Value.obj [(Key.str "items", Value.arr [])], c3change, false) := by
  decide

/-! ### Claim C5: reverting a sequence delete -/

/-- Document and delete change exercising the sequence branch of
`revert_change`'s `delete` case with a non-sentinel recorded old value. -/
def c5doc : Value := Value.obj [(Key.str "xs", Value.arr [])]

def c5change : Change :=
  { type := "delete", path := [Key.str "xs", Key.int 0], value := Value.null,
    oldValue := some (Value.num 42), clientId := "clientA", changeId := "a2",
    undone := false }

/-- C5 (the code evaluated at the failing input): reverting a sequence
`delete` with recorded old value 42 at index 0 inserts the old value TWICE —
once by the guarded `target.insert(idx, old_value)` inside the try block and
once more by the unconditional duplicated `target.insert(path[-1], old_value)`
that follows it (src/websocket_server.py line 452) — so the sequence grows
from length 0 to length 2, not 1. -/
theorem c5_revert_delete_inserts_twice :
    revert_change c5doc c5change =
      (Value.obj [(Key.str "xs", Value.arr [Value.num 42, Value.num 42])], false) := by
  decide

/-! ### Claim C1: accepted changes and the operation log -/

/-- A fresh `set` change as it arrives in a `change` message. -/
def c1change : Change :=
  { type := "set", path := [Key.str "k"], value := Value.num 1, oldValue := none,
    clientId := "", changeId := "", undone := false }

/-- Two clients joined to a cached empty document; empty history and empty
operation log. -/
def c1state : ServerState :=
  { clients := ["a", "b"], file_sessions := [("f", ["a", "b"])], change_history := [],
    file_data := [("f", Value.obj [])], operation_logs := [],
    operation_sequences := [] }

/-- `c1change` as the server stamps and records it: author and change id
filled in by `handle_change`, `oldValue` recorded by `apply_change`. -/
def c1stamped : Change :=
  { type := "set", path := [Key.str "k"], value := Value.num 1,
    oldValue := some Value.null, clientId := "a", changeId := "a_1",
    undone := false }

/-- C1 (the code evaluated at the failing input): handling a `change` message
accepts the change — it is applied, appended (stamped, with its recorded
`oldValue`) to the document's history, broadcast to the other member, and no
exception escapes — yet `operation_logs` and `operation_sequences` are left
untouched: no Operation with sequence 0 is ever appended, against the claim
and spec §4.6. -/
theorem c1_handle_change_appends_no_operation :
    (handle_change c1state "a" (some "f") (some c1change)
        (fun _ => Value.obj []) "1").1.change_history = [("f", [c1stamped])] ∧
    (handle_change c1state "a" (some "f") (some c1change)
        (fun _ => Value.obj []) "1").2 =
      ([("b", Msg.change "f" c1stamped)], false) ∧
    (handle_change c1state "a" (some "f") (some c1change)
        (fun _ => Value.obj []) "1").1.operation_logs = [] ∧
    (handle_change c1state "a" (some "f") (some c1change)
        (fun _ => Value.obj []) "1").1.operation_sequences = [] := by
  decide

/-! ### Claim C2: `request_operations` catch-up (spec-modelled) -/

/-- C2: on a well-formed retained log, a `request_operations` request by
"since sequence" either returns exactly the retained operations whose sequence
number is strictly greater than the given value (together with the last
sequence number), or signals that the requested range has been trimmed — and
in the trimmed case the operation with sequence `since + 1` was produced but
is no longer retained. -/
theorem request_operations_spec (st : OpLogState) (since : Nat)
    (hwf : WellFormedLog st) :
    (∃ ops, handle_request_operations st since = OpsReply.operations ops st.nextSeq ∧
        ∀ op, op ∈ ops ↔ (op ∈ st.log ∧ since < op.seq)) ∨
    (handle_request_operations st since = OpsReply.trimmed ∧
        since + 1 < st.nextSeq ∧ ∀ op ∈ st.log, since + 1 < op.seq) := by
  unfold handle_request_operations
  by_cases h : since + 1 < oldestRetained st
  · right
    rw [if_pos h]
    obtain ⟨hmap, hlen⟩ := hwf
    refine ⟨rfl, ?_, ?_⟩
    · have : oldestRetained st ≤ st.nextSeq := Nat.sub_le _ _
      omega
    · intro op hop
      have : op.seq ∈ st.log.map Operation.seq := List.mem_map_of_mem _ hop
      rw [hmap] at this
      have := (List.mem_range'_1.1 this).1
      omega
  · left
    rw [if_neg h]
    refine ⟨_, rfl, ?_⟩
    intro op
    simp [List.mem_filter]

/-- A concrete well-formed operation-log state: operations 1 and 2 retained,
operation 0 trimmed, three produced in total. -/
def c2state : OpLogState :=
  { log := [{ seq := 1, change := default }, { seq := 2, change := default }],
    nextSeq := 3 }

/-- Witness: `request_operations_spec` applied at a concrete well-formed log
and `since = 0`. -/
theorem request_operations_spec_witness :
    WellFormedLog c2state ∧
    ((∃ ops, handle_request_operations c2state 0 = OpsReply.operations ops c2state.nextSeq ∧
        ∀ op, op ∈ ops ↔ (op ∈ c2state.log ∧ 0 < op.seq)) ∨
     (handle_request_operations c2state 0 = OpsReply.trimmed ∧
        0 + 1 < c2state.nextSeq ∧ ∀ op ∈ c2state.log, 0 + 1 < op.seq)) :=
  ⟨by decide, request_operations_spec c2state 0 (by decide)⟩

/-! ### Claim C9: broadcast never reaches the excluded origin -/

/-- `broadcast_to_file` unfolded to a filter over the session members. -/
lemma broadcast_fold_eq (st : ServerState) (excl : Option String) (m : Msg)
    (members : List String) :
    members.foldr
        (fun c acc => (if some c ≠ excl then send_to_client st c m else []) ++ acc) [] =
      (members.filter (fun c => some c ≠ excl ∧ c ∈ st.clients)).map (fun c => (c, m)) := by
  induction members with
  | nil => simp
  | cons x xs ih =>
    rw [List.foldr_cons, ih, List.filter_cons]
    by_cases hx : some x = excl
    · simp [send_to_client, hx]
    · by_cases hc : x ∈ st.clients <;> simp [send_to_client, hx, hc]

lemma broadcast_to_file_eq (st : ServerState) (f : String) (excl : Option String) (m : Msg)
    (members : List String) (hmem : getEntry st.file_sessions f = some members) :
    broadcast_to_file st f excl m =
      (members.filter (fun c => some c ≠ excl ∧ c ∈ st.clients)).map (fun c => (c, m)) := by
  unfold broadcast_to_file
  rw [hmem]
  exact broadcast_fold_eq st excl m members

/-- C9: with every session member currently connected (the registry
invariant), broadcasting with an excluded origin delivers the message to
exactly the other session members: every delivery goes to a member distinct
from the origin and carries the message, every other member receives it, and
a session whose only member is the origin produces zero deliveries. -/
theorem broadcast_excludes_origin (st : ServerState) (f origin : String) (m : Msg)
    (members : List String) (hmem : getEntry st.file_sessions f = some members)
    (hsub : ∀ c ∈ members, c ∈ st.clients) :
    (∀ c mm, (c, mm) ∈ broadcast_to_file st f (some origin) m →
        c ≠ origin ∧ c ∈ members ∧ mm = m) ∧
    (∀ c ∈ members, c ≠ origin → (c, m) ∈ broadcast_to_file st f (some origin) m) ∧
    (members = [origin] → broadcast_to_file st f (some origin) m = []) := by
  rw [broadcast_to_file_eq st f (some origin) m members hmem]
  refine ⟨?_, ?_, ?_⟩
  · intro c mm h
    simp only [List.mem_map, List.mem_filter, decide_eq_true_eq, Prod.mk.injEq] at h
    obtain ⟨a, ⟨ha, hne, _⟩, hac, hmm⟩ := h
    subst hac
    exact ⟨fun hco => hne (by rw [hco]), ha, hmm.symm⟩
  · intro c hcm hco
    simp only [List.mem_map, List.mem_filter, decide_eq_true_eq, Prod.mk.injEq]
    exact ⟨c, ⟨hcm, by simpa using hco, hsub c hcm⟩, rfl, trivial⟩
  · intro hm
    subst hm
    simp

/-- A concrete two-member session for the broadcast witness. -/
def c9state : ServerState :=
  { clients := ["a", "b"], file_sessions := [("f", ["a", "b"])],
    change_history := [], file_data := [], operation_logs := [],
    operation_sequences := [] }

/-- Witness: `broadcast_excludes_origin` at a concrete two-member session with
origin "a". -/
theorem broadcast_excludes_origin_witness :
    (getEntry c9state.file_sessions "f" = some ["a", "b"] ∧
      ∀ c ∈ ["a", "b"], c ∈ c9state.clients) ∧
    ((∀ c mm, (c, mm) ∈ broadcast_to_file c9state "f" (some "a") (Msg.client_joined "a" "f") →
        c ≠ "a" ∧ c ∈ ["a", "b"] ∧ mm = Msg.client_joined "a" "f") ∧
     (∀ c ∈ ["a", "b"], c ≠ "a" →
        (c, Msg.client_joined "a" "f") ∈
          broadcast_to_file c9state "f" (some "a") (Msg.client_joined "a" "f")) ∧
     (["a", "b"] = ["a"] →
        broadcast_to_file c9state "f" (some "a") (Msg.client_joined "a" "f") = [])) :=
  ⟨⟨by decide, by decide⟩,
    broadcast_excludes_origin c9state "f" "a" (Msg.client_joined "a" "f") ["a", "b"]
      (by decide) (by decide)⟩

/-! ### Claims C7 and C6: full-sync conflict resolution -/

/-- C7: a `full_sync` whose timestamp is strictly older than the document's
cached `_lastSyncTimestamp` leaves the whole server state unchanged, delivers
no message, and raises nothing — whatever the data field holds. -/
theorem full_sync_stale_noop (st : ServerState) (c f : String) (dataField : Option Value)
    (ts cur now : Int) (hcur : currentTs st f = some cur) (hts : ts < cur) :
    handle_full_sync st c (some f) dataField (some ts) now = (st, [], false) := by
  unfold handle_full_sync
  by_cases hf : f = ""
  · simp [hf]
  · cases dataField with
    | none => simp [hf]
    | some d =>
      by_cases hd : pyTruthy d = false
      · simp [hf, hd]
      · simp [hf, hd, hcur, hts]

/-- A document cached with `_lastSyncTimestamp = 10`. -/
def c7state : ServerState :=
  { clients := ["a"], file_sessions := [("f", ["a"])], change_history := [],
    file_data := [("f", Value.obj [(Key.str "_lastSyncTimestamp", Value.num 10)])],
    operation_logs := [], operation_sequences := [] }

/-- Witness: a `full_sync` at timestamp 5 against cached timestamp 10 is
dropped. -/
theorem full_sync_stale_noop_witness :
    currentTs c7state "f" = some 10 ∧ (5 : Int) < 10 ∧
    handle_full_sync c7state "b" (some "f")
        (some (Value.obj [(Key.str "a", Value.num 1)])) (some 5) 0 =
      (c7state, [], false) :=
  ⟨by decide, by decide,
    full_sync_stale_noop c7state "b" "f" (some (Value.obj [(Key.str "a", Value.num 1)]))
      5 10 0 (by decide) (by decide)⟩

/-- The value stored (and broadcast, and persisted) by an accepted
`full_sync`: the supplied map with the server-injected top-level
`_lastSyncTimestamp` key. -/
def injectTs (dfs : List (Key × Value)) (ts : Int) : Value :=
  Value.obj (setKey dfs (Key.str "_lastSyncTimestamp") (Value.num ts))

/-- A two-member session over a not-yet-cached document. -/
def c6state : ServerState :=
  { clients := ["a", "b"], file_sessions := [("f", ["a", "b"])], change_history := [],
    file_data := [], operation_logs := [], operation_sequences := [] }

/-- C6 (counterexample): a gate-passing `full_sync` whose truthy data is not a
map — here the sequence `[1]` against an uncached document (cached timestamp
0, message timestamp 5) — neither replaces the document's state with the
supplied data nor broadcasts anything: the handler raises `TypeError` at
`sync_data['_lastSyncTimestamp'] = timestamp` (line 183), refuting the claim
as stated over every gate-passing `full_sync`. -/
theorem c6_counterexample :
    getEntry (handle_full_sync c6state "a" (some "f")
        (some (Value.arr [Value.num 1])) (some 5) 0).1.file_data "f" ≠
      some (Value.arr [Value.num 1]) ∧
    (handle_full_sync c6state "a" (some "f")
        (some (Value.arr [Value.num 1])) (some 5) 0).2.1 = [] ∧
    (handle_full_sync c6state "a" (some "f")
        (some (Value.arr [Value.num 1])) (some 5) 0) = (c6state, [], true) := by
  decide

/-- C6 (amended): a `full_sync` carrying a nonempty MAP as data whose
timestamp passes the gate (not strictly less than the cached
`lastSyncTimestamp`) replaces the document's cached state wholesale with the
supplied data (plus the injected timestamp key), and broadcasts a `full_sync`
message carrying that data and timestamp to exactly the other session
members: every delivery goes to a member other than the sender, and every
other (connected) member receives it.  (For gate-passing truthy non-map data
the injection raises `TypeError` and nothing is replaced or broadcast — see
the counterexample above.) -/
theorem full_sync_accept_spec (st : ServerState) (c f : String) (dfs : List (Key × Value))
    (ts cur now : Int) (members : List String)
    (hf : f ≠ "") (hd : dfs ≠ []) (hcur : currentTs st f = some cur) (hts : cur ≤ ts)
    (hmem : getEntry st.file_sessions f = some members)
    (hsub : ∀ x ∈ members, x ∈ st.clients) :
    ∃ sends,
      handle_full_sync st c (some f) (some (Value.obj dfs)) (some ts) now =
        ({ st with file_data := setEntry st.file_data f (injectTs dfs ts) }, sends, false) ∧
      (∀ x mm, (x, mm) ∈ sends →
          x ≠ c ∧ x ∈ members ∧ mm = Msg.full_sync f (injectTs dfs ts) ts c) ∧
      (∀ x ∈ members, x ≠ c → (x, Msg.full_sync f (injectTs dfs ts) ts c) ∈ sends) := by
  have hgate : ¬ ts < cur := by omega
  have htr : pyTruthy (Value.obj dfs) = true := by simp [pyTruthy, hd]
  refine ⟨broadcast_to_file { st with file_data := setEntry st.file_data f (injectTs dfs ts) }
      f (some c) (Msg.full_sync f (injectTs dfs ts) ts c), ?_, ?_, ?_⟩
  · unfold handle_full_sync
    simp [hf, htr, hcur, hgate, injectTs]
  · intro x mm h
    rw [broadcast_to_file_eq
      { st with file_data := setEntry st.file_data f (injectTs dfs ts) }
      f (some c) _ members hmem] at h
    simp only [List.mem_map, List.mem_filter, decide_eq_true_eq, Prod.mk.injEq] at h
    obtain ⟨a, ⟨ha, hne, _⟩, hax, hmm⟩ := h
    subst hax
    exact ⟨fun hco => hne (by rw [hco]), ha, hmm.symm⟩
  · intro x hx hxc
    rw [broadcast_to_file_eq
      { st with file_data := setEntry st.file_data f (injectTs dfs ts) }
      f (some c) _ members hmem]
    simp only [List.mem_map, List.mem_filter, decide_eq_true_eq, Prod.mk.injEq]
    exact ⟨x, ⟨hx, by simpa using hxc, hsub x hx⟩, rfl, trivial⟩

/-- Witness: `full_sync_accept_spec` at a concrete accepted `full_sync`. -/
theorem full_sync_accept_spec_witness :
    ("f" ≠ "" ∧ [(Key.str "x", Value.num 1)] ≠ ([] : List (Key × Value)) ∧
      currentTs c6state "f" = some 0 ∧ (0 : Int) ≤ 5 ∧
      getEntry c6state.file_sessions "f" = some ["a", "b"] ∧
      ∀ y ∈ ["a", "b"], y ∈ c6state.clients) ∧
    (∃ sends,
      handle_full_sync c6state "a" (some "f")
          (some (Value.obj [(Key.str "x", Value.num 1)])) (some 5) 0 =
        ({ c6state with
            file_data := setEntry c6state.file_data "f" (injectTs [(Key.str "x", Value.num 1)] 5) },
         sends, false) ∧
      (∀ y mm, (y, mm) ∈ sends →
          y ≠ "a" ∧ y ∈ ["a", "b"] ∧
          mm = Msg.full_sync "f" (injectTs [(Key.str "x", Value.num 1)] 5) 5 "a") ∧
      (∀ y ∈ ["a", "b"], y ≠ "a" →
          (y, Msg.full_sync "f" (injectTs [(Key.str "x", Value.num 1)] 5) 5 "a") ∈ sends)) :=
  ⟨⟨by decide, by decide, by decide, by decide, by decide, by decide⟩,
    full_sync_accept_spec c6state "a" "f" [(Key.str "x", Value.num 1)] 5 0 0 ["a", "b"]
      (by decide) (by decide) (by decide) (by decide) (by decide) (by decide)⟩

/-! ### Claim C10: the injected `_lastSyncTimestamp` key -/

lemma getEntry_setEntry_self (l : List (String × α)) (k : String) (v : α) :
    getEntry (setEntry l k v) k = some v := by
  induction l with
  | nil => simp [setEntry, getEntry]
  | cons e l ih =>
    obtain ⟨m, w⟩ := e
    by_cases h : m = k <;> simp [setEntry, getEntry, h, ih]

/-- Every delivery produced by a broadcast carries the broadcast message. -/
lemma broadcast_msg_eq (st : ServerState) (f : String) (excl : Option String) (m : Msg)
    (y : String) (mm : Msg) (h : (y, mm) ∈ broadcast_to_file st f excl m) : mm = m := by
  unfold broadcast_to_file at h
  cases hg : getEntry st.file_sessions f with
  | none => rw [hg] at h; simp at h
  | some mems =>
    simp only [hg] at h
    rw [broadcast_fold_eq] at h
    simp only [List.mem_map] at h
    obtain ⟨a, _, heq⟩ := h
    exact (Prod.mk.inj heq).2.symm

/-- `handle_join_file` on a cached map document sends the joiner a
`file_joined` message carrying the cached value and its stored
`_lastSyncTimestamp` first. -/
lemma join_file_sends_cached (st : ServerState) (x f : String) (disk : String → Value)
    (now2 ts : Int) (dfs2 : List (Key × Value)) (hf : f ≠ "")
    (hfd : getEntry st.file_data f = some (Value.obj dfs2))
    (hts2 : getKey dfs2 (Key.str "_lastSyncTimestamp") = some (Value.num ts))
    (hx : x ∈ st.clients) :
    ∃ hist lastSeq rest,
      (handle_join_file st x (some f) disk now2).2.1 =
        (x, Msg.file_joined f (Value.obj dfs2) (Value.num ts) hist lastSeq) :: rest := by
  unfold handle_join_file
  simp only [hf, loadIfAbsent, hfd, Option.isSome_some, if_true, if_false, ite_true,
    ite_false, Option.getD_some, hts2, send_to_client, hx, if_pos, reduceIte]
  exact ⟨_, _, _, rfl⟩

/-- C10: an accepted `full_sync` writes the sync timestamp into the document
value itself, under the top-level map key `_lastSyncTimestamp`: the cached
value — which is exactly what `save_file_data` persists — is the supplied map
plus that key, every broadcast delivery carries that same augmented value, and
a later `join_file` returns it (injected key included) as the `file_joined`
data; and a `full_sync` whose `data` field is missing or an empty map returns
early with no state change, no delivery and no exception. -/
theorem full_sync_injects_timestamp (st : ServerState) (c x f : String)
    (dfs : List (Key × Value)) (ts cur now now2 : Int) (disk : String → Value)
    (hf : f ≠ "") (hd : dfs ≠ []) (hcur : currentTs st f = some cur) (hts : cur ≤ ts)
    (hxcl : x ∈ st.clients) :
    getEntry (handle_full_sync st c (some f) (some (Value.obj dfs)) (some ts) now).1.file_data f =
        some (injectTs dfs ts) ∧
    getKey (setKey dfs (Key.str "_lastSyncTimestamp") (Value.num ts))
        (Key.str "_lastSyncTimestamp") = some (Value.num ts) ∧
    save_file_data (handle_full_sync st c (some f) (some (Value.obj dfs)) (some ts) now).1 f =
        some (injectTs dfs ts) ∧
    (∀ y mm, (y, mm) ∈ (handle_full_sync st c (some f) (some (Value.obj dfs)) (some ts) now).2.1 →
        mm = Msg.full_sync f (injectTs dfs ts) ts c) ∧
    (∃ hist lastSeq rest,
      (handle_join_file (handle_full_sync st c (some f) (some (Value.obj dfs)) (some ts) now).1
          x (some f) disk now2).2.1 =
        (x, Msg.file_joined f (injectTs dfs ts) (Value.num ts) hist lastSeq) :: rest) ∧
    handle_full_sync st c (some f) none (some ts) now = (st, [], false) ∧
    handle_full_sync st c (some f) (some (Value.obj [])) (some ts) now = (st, [], false) := by
  have hgate : ¬ ts < cur := by omega
  have htr : pyTruthy (Value.obj dfs) = true := by simp [pyTruthy, hd]
  have hstep : handle_full_sync st c (some f) (some (Value.obj dfs)) (some ts) now =
      ({ st with file_data := setEntry st.file_data f (injectTs dfs ts) },
       broadcast_to_file { st with file_data := setEntry st.file_data f (injectTs dfs ts) }
         f (some c) (Msg.full_sync f (injectTs dfs ts) ts c), false) := by
    unfold handle_full_sync
    simp [hf, htr, hcur, hgate, injectTs]
  rw [hstep]
  refine ⟨getEntry_setEntry_self _ _ _, getKey_setKey_self _ _ _, ?_, ?_, ?_, ?_, ?_⟩
  · simp only [save_file_data]
    exact getEntry_setEntry_self _ _ _
  · intro y mm h
    exact broadcast_msg_eq _ _ _ _ y mm h
  · exact join_file_sends_cached _ x f disk now2 ts
      (setKey dfs (Key.str "_lastSyncTimestamp") (Value.num ts)) hf
      (getEntry_setEntry_self _ _ _) (getKey_setKey_self _ _ _) hxcl
  · unfold handle_full_sync
    simp [hf]
  · unfold handle_full_sync
    simp [hf, pyTruthy]

/-- Witness: `full_sync_injects_timestamp` at a concrete accepted
`full_sync` followed by a `join_file` from a second connected client. -/
theorem full_sync_injects_timestamp_witness :
    ("f" ≠ "" ∧ [(Key.str "x", Value.num 1)] ≠ ([] : List (Key × Value)) ∧
      currentTs c6state "f" = some 0 ∧ (0 : Int) ≤ 5 ∧ "b" ∈ c6state.clients) ∧
    (getEntry (handle_full_sync c6state "a" (some "f")
          (some (Value.obj [(Key.str "x", Value.num 1)])) (some 5) 0).1.file_data "f" =
        some (injectTs [(Key.str "x", Value.num 1)] 5) ∧
     getKey (setKey [(Key.str "x", Value.num 1)] (Key.str "_lastSyncTimestamp") (Value.num 5))
        (Key.str "_lastSyncTimestamp") = some (Value.num 5) ∧
     save_file_data (handle_full_sync c6state "a" (some "f")
          (some (Value.obj [(Key.str "x", Value.num 1)])) (some 5) 0).1 "f" =
        some (injectTs [(Key.str "x", Value.num 1)] 5) ∧
     (∀ y mm, (y, mm) ∈ (handle_full_sync c6state "a" (some "f")
          (some (Value.obj [(Key.str "x", Value.num 1)])) (some 5) 0).2.1 →
        mm = Msg.full_sync "f" (injectTs [(Key.str "x", Value.num 1)] 5) 5 "a") ∧
     (∃ hist lastSeq rest,
       (handle_join_file (handle_full_sync c6state "a" (some "f")
            (some (Value.obj [(Key.str "x", Value.num 1)])) (some 5) 0).1
          "b" (some "f") (fun _ => Value.obj []) 7).2.1 =
         (("b" : String), Msg.file_joined "f" (injectTs [(Key.str "x", Value.num 1)] 5)
            (Value.num 5) hist lastSeq) :: rest) ∧
     handle_full_sync c6state "a" (some "f") none (some 5) 0 = (c6state, [], false) ∧
     handle_full_sync c6state "a" (some "f") (some (Value.obj [])) (some 5) 0 =
        (c6state, [], false)) :=
  ⟨⟨by decide, by decide, by decide, by decide, by decide⟩,
    full_sync_injects_timestamp c6state "a" "b" "f" [(Key.str "x", Value.num 1)] 5 0 0 7
      (fun _ => Value.obj []) (by decide) (by decide) (by decide) (by decide) (by decide)⟩

/-! ### Claim C8: undo selects the newest matching history entry -/

lemma lastMatchIdx_none_iff (l : List Change) (c : String) :
    lastMatchIdx l c = none ↔ ∀ ch ∈ l, ¬(ch.clientId = c ∧ ch.undone = false) := by
  induction l with
  | nil => simp [lastMatchIdx]
  | cons ch rest ih =>
    simp only [lastMatchIdx]
    cases h : lastMatchIdx rest c with
    | some i =>
      simp only [h, reduceCtorEq, false_iff]
      intro hall
      have h2 := ih.2 (fun ch2 hch2 => hall ch2 (List.mem_cons_of_mem _ hch2))
      rw [h] at h2
      exact Option.noConfusion h2
    | none =>
      simp only [h]
      by_cases hp : ch.clientId = c ∧ ch.undone = false
      · simp only [if_pos hp, reduceCtorEq, false_iff]
        intro hall
        exact hall ch (List.mem_cons_self _ _) hp
      · simp only [if_neg hp, List.forall_mem_cons]
        exact ⟨fun _ => ⟨hp, ih.1 h⟩, fun _ => trivial⟩

lemma lastMatchIdx_some_of (l : List Change) (c : String) :
    ∀ i ch, l.get? i = some ch → ch.clientId = c → ch.undone = false →
      (∀ ch2 ∈ l.drop (i + 1), ¬(ch2.clientId = c ∧ ch2.undone = false)) →
      lastMatchIdx l c = some i := by
  induction l with
  | nil => intro i ch h; simp at h
  | cons hd rest ih =>
    intro i ch hget hcid hund hafter
    cases i with
    | zero =>
      have hhd : hd = ch := by simpa using hget
      subst hhd
      have hrest : lastMatchIdx rest c = none :=
        (lastMatchIdx_none_iff rest c).2 (by simpa using hafter)
      simp [lastMatchIdx, hrest, hcid, hund]
    | succ j =>
      have hget2 : rest.get? j = some ch := by simpa using hget
      have hafter2 : ∀ ch2 ∈ rest.drop (j + 1), ¬(ch2.clientId = c ∧ ch2.undone = false) := by
        simpa using hafter
      have hj := ih j ch hget2 hcid hund hafter2
      simp [lastMatchIdx, hj]

/-- C8: for an `undo` request on a document with cached history, (i) when the
requesting client has authored no not-yet-undone entry, the request is a
complete no-op: unchanged state, no delivery, no exception; (ii) when index
`i` holds an entry authored by the requester with `undone = false` and no
later (newer) entry matches, the scan selects exactly that entry: it is
marked undone in place and reverted against the cached document (with the
`undo` broadcast to all members unless the revert raised). -/
theorem handle_undo_spec (st : ServerState) (c f : String) (history : List Change)
    (hf : f ≠ "") (hh : getEntry st.change_history f = some history) :
    ((∀ ch ∈ history, ¬(ch.clientId = c ∧ ch.undone = false)) →
      handle_undo st c (some f) = (st, [], false)) ∧
    (∀ i ch, history.get? i = some ch → ch.clientId = c → ch.undone = false →
      (∀ ch2 ∈ history.drop (i + 1), ¬(ch2.clientId = c ∧ ch2.undone = false)) →
      handle_undo st c (some f) = undoResult st f history i ch) := by
  constructor
  · intro hall
    have hnone := (lastMatchIdx_none_iff history c).2 hall
    unfold handle_undo
    simp [hf, hh, hnone]
  · intro i ch hget hcid hund hafter
    have hsome := lastMatchIdx_some_of history c i ch hget hcid hund hafter
    have hget2 : history[i]? = some ch := by
      simpa [List.get?_eq_getElem?] using hget
    have hgetD : history.getD i default = ch := by
      simp [List.getD, hget2]
    unfold handle_undo
    simp [hf, hh, hsome, hget2]

/-- A history with one change by each of two clients. -/
def c8change0 : Change :=
  { type := "set", path := [Key.str "k"], value := Value.num 1,
    oldValue := some (Value.num 0), clientId := "a", changeId := "a_1", undone := false }

def c8change1 : Change :=
  { type := "set", path := [Key.str "k"], value := Value.num 2,
    oldValue := some (Value.num 1), clientId := "b", changeId := "b_1", undone := false }

def c8state : ServerState :=
  { clients := ["a", "b"], file_sessions := [("f", ["a", "b"])],
    change_history := [("f", [c8change0, c8change1])],
    file_data := [("f", Value.obj [(Key.str "k", Value.num 2)])],
    operation_logs := [], operation_sequences := [] }

/-- Witness: `handle_undo_spec` at a concrete two-entry history. -/
theorem handle_undo_spec_witness :
    ("f" ≠ "" ∧ getEntry c8state.change_history "f" = some [c8change0, c8change1]) ∧
    (((∀ ch ∈ [c8change0, c8change1], ¬(ch.clientId = "a" ∧ ch.undone = false)) →
        handle_undo c8state "a" (some "f") = (c8state, [], false)) ∧
      (∀ i ch, [c8change0, c8change1].get? i = some ch → ch.clientId = "a" →
        ch.undone = false →
        (∀ ch2 ∈ [c8change0, c8change1].drop (i + 1),
            ¬(ch2.clientId = "a" ∧ ch2.undone = false)) →
        handle_undo c8state "a" (some "f") =
          undoResult c8state "f" [c8change0, c8change1] i ch)) :=
  ⟨⟨by decide, by decide⟩,
    handle_undo_spec c8state "a" "f" [c8change0, c8change1] (by decide) (by decide)⟩

/-! ### Claim C4: apply `set` then revert on a map target -/

lemma recordOld_path (ch : Change) (k : Key) (t : Value) :
    (recordOld ch k t).path = ch.path := by
  unfold recordOld
  by_cases h : ch.oldValue.isSome
  · simp [h]
  · cases t <;> simp [h]
    cases keyToIdx k <;> simp
    split <;> simp

lemma applyLast_path (ch : Change) (k : Key) (t : Value) :
    ((applyLast ch k t).2).path = ch.path := by
  unfold applyLast
  simp [recordOld_path]

lemma applyGo_path (fullPath : List Key) :
    ∀ (l : List Key) (ch : Change) (t : Value),
      ((applyGo fullPath ch t l).2.1).path = ch.path := by
  intro l
  induction l with
  | nil => intro ch t; simp [applyGo]
  | cons k rest ih =>
    intro ch t
    by_cases hr : rest = []
    · subst hr
      simp [applyGo, applyLast_path]
    · cases t with
      | obj fs =>
        by_cases hfs : hasKey fs k = true <;>
          simp [applyGo, hr, hfs, ih]
      | arr xs =>
        cases hi : keyToIdx k with
        | none => simp [applyGo, hr, hi]
        | some i =>
          by_cases hrange : 0 ≤ i ∧ i < (xs.length : Int) <;>
            simp [applyGo, hr, hi, hrange, ih]
      | null => simp [applyGo, hr]
      | bool b => simp [applyGo, hr]
      | num n => simp [applyGo, hr]
      | str s => simp [applyGo, hr]

lemma set_getElem_self (xs : List Value) (i : Nat) (h : i < xs.length) :
    xs.set i (xs[i]) = xs := by
  have h2 := set_getD_self xs i Value.null h
  rwa [show xs.getD i Value.null = xs[i] from by simp [h]] at h2

lemma set_apply_revert_aux (ch : Change) (fullPath : List Key) (k : Key)
    (hty : ch.type = "set") (hold : ch.oldValue = none) :
    ∀ (pre : List Key) (doc : Value) (fs : List (Key × Value)),
      navigate doc pre = some (Value.obj fs) →
      getKey fs k ≠ some Value.null →
      (applyGo fullPath ch doc (pre ++ [k])).2.2 = false ∧
      revertGo (applyGo fullPath ch doc (pre ++ [k])).2.1
        (applyGo fullPath ch doc (pre ++ [k])).1 (pre ++ [k]) = (doc, false) := by
  intro pre
  induction pre with
  | nil =>
    intro doc fs hnav hnn
    have hdoc : doc = Value.obj fs := by simpa [navigate] using hnav
    subst hdoc
    cases hk : getKey fs k with
    | none =>
      constructor
      · simp [applyGo, applyLast, recordOld, hold, hty]
      · simp [applyGo, applyLast, recordOld, revertGo, revertLast, hold, hty, hk,
          Value.isNull, popKey_setKey_absent fs k ch.value hk]
    | some w =>
      have hw : w ≠ Value.null := fun hww => hnn (by rw [hk, hww])
      constructor
      · simp [applyGo, applyLast, recordOld, hold, hty]
      · simp [applyGo, applyLast, recordOld, revertGo, revertLast, hold, hty, hk,
          isNull_false_of_ne w hw, setKey_setKey, setKey_getKey_self fs k w hk]
  | cons p pre ih =>
    intro doc fs hnav hnn
    have hne : pre ++ [k] ≠ [] := by simp
    cases doc with
    | obj gs =>
      cases hg : getKey gs p with
      | none => simp [navigate, hg] at hnav
      | some child =>
        have hnav2 : navigate child pre = some (Value.obj fs) := by
          simpa [navigate, hg] using hnav
        obtain ⟨h1, h2⟩ := ih child fs hnav2 hnn
        have hhk : hasKey gs p = true := by simp [hasKey, hg]
        constructor
        · simp [applyGo, hne, hhk, hg, h1]
        · simp only [List.cons_append]
          rw [applyGo]
          simp only [if_neg hne, hhk, if_true, hg, Option.getD_some]
          rw [revertGo]
          simp only [if_neg hne, hasKey, getKey_setKey_self, Option.isSome_some, if_true,
            Option.getD_some]
          rw [h2]
          simp [setKey_setKey, setKey_getKey_self gs p child hg]
    | arr xs =>
      cases hi : keyToIdx p with
      | none => simp [navigate, hi] at hnav
      | some i =>
        by_cases hrange : 0 ≤ i ∧ i < (xs.length : Int)
        · have hnav2 : navigate (xs.getD i.toNat Value.null) pre = some (Value.obj fs) := by
            simpa [navigate, hi, hrange] using hnav
          obtain ⟨h1, h2⟩ := ih (xs.getD i.toNat Value.null) fs hnav2 hnn
          have hlt : i.toNat < xs.length := by omega
          have hge : xs.getD i.toNat Value.null = xs[i.toNat] := by simp [hlt]
          rw [hge] at h1 h2
          constructor
          · simp [applyGo, hne, hi, hrange, h1]
          · simp only [List.cons_append]
            rw [applyGo]
            simp only [if_neg hne, hi, hrange, and_self, if_true, ite_true, hge]
            rw [revertGo]
            simp only [if_neg hne, hi, List.length_set, hrange, and_self, if_true, ite_true]
            rw [getD_set_self xs i.toNat _ Value.null hlt]
            rw [h2]
            simp [List.set_set, set_getElem_self xs i.toNat hlt]
        · simp [navigate, hi, hrange] at hnav
    | null => simp [navigate] at hnav
    | bool b => simp [navigate] at hnav
    | num n => simp [navigate] at hnav
    | str s => simp [navigate] at hnav

/-- A fresh `set` change as a client submits it (no `oldValue` yet). -/
def mkSetChange (path : List Key) (v : Value) (cid chid : String) : Change :=
  { type := "set", path := path, value := v, oldValue := none,
    clientId := cid, changeId := chid, undone := false }

/-- C4 (counterexample): on the map `{"a": null}`, applying
`set ["a"] := 1` records `oldValue = None` — indistinguishable from the
absent-key sentinel — so the subsequent revert removes the key instead of
restoring the null that was there: the claimed exact restoration fails. -/
theorem c4_counterexample :
    (revert_change
        (apply_change (Value.obj [(Key.str "a", Value.null)])
          (mkSetChange [Key.str "a"] (Value.num 1) "c" "i")).1
        (apply_change (Value.obj [(Key.str "a", Value.null)])
          (mkSetChange [Key.str "a"] (Value.num 1) "c" "i")).2.1).1 ≠
      Value.obj [(Key.str "a", Value.null)] := by
  decide

/-- C4 (amended): for every map target reached by the path and every fresh
`set` change, applying the change and then reverting it restores the document
exactly (including restoring the absence of a previously absent key), PROVIDED
the prior value at the final key was not null: a present null collides with
the `None` absent-value sentinel recorded in `oldValue`, and revert then
removes the key instead of restoring null. -/
theorem apply_set_revert_restores (doc : Value) (pre : List Key) (k : Key) (v : Value)
    (cid chid : String) (fs : List (Key × Value))
    (hnav : navigate doc pre = some (Value.obj fs))
    (hnn : getKey fs k ≠ some Value.null) :
    revert_change (apply_change doc (mkSetChange (pre ++ [k]) v cid chid)).1
        (apply_change doc (mkSetChange (pre ++ [k]) v cid chid)).2.1 = (doc, false) := by
  have h := set_apply_revert_aux (mkSetChange (pre ++ [k]) v cid chid) (pre ++ [k]) k rfl rfl
      pre doc fs hnav hnn
  unfold revert_change apply_change
  rw [applyGo_path]
  exact h.2

/-- Witness: `apply_set_revert_restores` on `{"a": 5}` with `set ["a"] := 7`. -/
theorem apply_set_revert_restores_witness :
    (navigate (Value.obj [(Key.str "a", Value.num 5)]) [] =
        some (Value.obj [(Key.str "a", Value.num 5)]) ∧
      getKey [(Key.str "a", Value.num 5)] (Key.str "a") ≠ some Value.null) ∧
    revert_change
        (apply_change (Value.obj [(Key.str "a", Value.num 5)])
          (mkSetChange ([] ++ [Key.str "a"]) (Value.num 7) "c" "i")).1
        (apply_change (Value.obj [(Key.str "a", Value.num 5)])
          (mkSetChange ([] ++ [Key.str "a"]) (Value.num 7) "c" "i")).2.1 =
      (Value.obj [(Key.str "a", Value.num 5)], false) :=
  ⟨⟨by decide, by decide⟩,
    apply_set_revert_restores (Value.obj [(Key.str "a", Value.num 5)]) [] (Key.str "a")
      (Value.num 7) "c" "i" [(Key.str "a", Value.num 5)] (by decide) (by decide)⟩
